import Mathlib

/-!
Verification of the relaxation-and-decoherence tutorial notebook
(`reference/qcvv/relaxation_and_decoherence.ipynb`) and of the
Deutsch-Josza histogram post-processing cell.

The notebook builds, for each experiment (T1, T2*, T2 echo, CPMG), a
sequence of circuits padded with identity gates, extracts excited-state
probabilities from the returned count histograms, and fits them with
`scipy.optimize.curve_fit`.  The definitions below are a shallow
embedding of that code: circuits become lists of gates, count
histograms become insertion-ordered association lists (Python dicts),
numpy arithmetic on delay times becomes exact rational arithmetic, and
the floating-point probability/standard-error formulas become real
arithmetic.
-/

namespace Qcvv

/-- Gates appearing in the notebook's circuits. -/
inductive Gate
  | x | h | iden | barrier | u1 | measure
deriving DecidableEq, BEq, Repr

/-- Embedding of the notebook's `pad_QId(circuit, N, qr)`: appends a
barrier followed by an identity gate, `N` times. -/
def pad_QId (circuit : List Gate) (N : ℕ) : List Gate :=
  circuit ++ (List.replicate N [Gate.barrier, Gate.iden]).flatten

/-- The T1 circuit of step `ii`: an X gate, then `gates_per_step*ii`
padded identities, then a barrier and a measurement. -/
def t1_circuit (gates_per_step ii : ℕ) : List Gate :=
  pad_QId [Gate.x] (gates_per_step * ii) ++ [Gate.barrier, Gate.measure]

/-- Number of identity gates in a circuit.  Each identity operation has
the duration of a single-qubit gate followed by a buffer, so the padded
delay of a circuit is this count times `tot_length`. -/
def idenCount (c : List Gate) : ℕ := c.count Gate.iden

/-- Physical delay contributed by the padded identity gates of a
circuit, in the backend's time unit (`tot_length = buffer + pulse`). -/
def delay_time (c : List Gate) (tot_length : ℚ) : ℚ :=
  (idenCount c : ℚ) * tot_length

/-- Embedding of `numpy.linspace(a, b, num)[i]`: `num` evenly spaced
samples from `a` to `b`, endpoint included. -/
def linspace (a b : ℚ) (num i : ℕ) : ℚ :=
  if num ≤ 1 then a else a + (i : ℚ) * (b - a) / ((num : ℚ) - 1)

/-- Embedding of the notebook's
`xvals = time_per_step*np.linspace(0, len(qc_dict.keys()), len(qc_dict.keys()))/plot_factor`:
the `ii`-th x value handed to the curve fitter. -/
def xvals (time_per_step : ℚ) (steps : ℕ) (plot_factor : ℚ) (ii : ℕ) : ℚ :=
  time_per_step * linspace 0 (steps : ℚ) steps ii / plot_factor

/-- The padding block of `N` (barrier, identity) pairs holds exactly `N`
identity gates. -/
theorem count_iden_padding (N : ℕ) :
    ((List.replicate N [Gate.barrier, Gate.iden]).flatten).count Gate.iden = N := by
  induction N with
  | zero => rfl
  | succ n ih =>
    simp only [List.replicate_succ, List.flatten_cons, List.count_append, ih]
    have hpair : List.count Gate.iden [Gate.barrier, Gate.iden] = 1 := by decide
    omega

/-- The identity count of the T1 step-`ii` circuit is `gates_per_step * ii`. -/
theorem idenCount_t1_circuit (g ii : ℕ) :
    idenCount (t1_circuit g ii) = g * ii := by
  unfold idenCount t1_circuit pad_QId
  simp only [List.count_append, count_iden_padding]
  have h1 : List.count Gate.iden [Gate.x] = 0 := by decide
  have h2 : List.count Gate.iden [Gate.barrier, Gate.measure] = 0 := by decide
  omega

/-- Claim C1.  With the notebook's T1 parameters `steps = 10`,
`gates_per_step = 80`, and a backend with `tot_length = 100` ns and unit
`ns` (so `time_per_step = 8000` ns and `plot_factor = 1000`): the
physical delay of the step-1 circuit is `8` microseconds, but the x
value the code passes to the fitter is `xvals[1] = 80/9 ≈ 8.89`
microseconds — `np.linspace(0, steps, steps)` has spacing
`steps/(steps-1)`, not `1`, so the x values do not equal the circuits'
physical delays `ii * time_per_step`. -/
theorem t1_xvals_linspace_bug :
    delay_time (t1_circuit 80 1) 100 / 1000 = 8 ∧
    xvals 8000 10 1000 1 = 80 / 9 ∧
    xvals 8000 10 1000 1 ≠ delay_time (t1_circuit 80 1) 100 / 1000 := by
  have hd : delay_time (t1_circuit 80 1) 100 = 8000 := by
    rw [delay_time, idenCount_t1_circuit]
    norm_num
  refine ⟨by rw [hd]; norm_num, ?_, ?_⟩
  · rw [xvals, linspace]
    norm_num
  · rw [xvals, linspace, hd]
    norm_num

/-- Probability assigned to a measured count:
`data[ii] = float(result.get_counts(key)[keys_0_1[1]])/shots`, as an
exact rational. -/
def normalized_prob (count shots : ℕ) : ℚ := (count : ℚ) / (shots : ℚ)

/-- Modelled from the spec: the remote backend's result object exposes,
per circuit, a mapping from bitstring to integer count built from
`shots` repeated executions of that circuit, so the counts of one
circuit sum to the number of shots. -/
def WellFormedCounts (counts : List (String × ℕ)) (shots : ℕ) : Prop :=
  (counts.map Prod.snd).sum = shots

/-- Claim C3.  Any count taken from a well-formed histogram (counts
summing to a positive number of shots) normalizes to a probability in
the interval `[0, 1]`. -/
theorem normalized_prob_mem_unit_interval
    (counts : List (String × ℕ)) (shots : ℕ) (k : String) (c : ℕ)
    (hwf : WellFormedCounts counts shots) (hpos : 0 < shots)
    (hmem : (k, c) ∈ counts) :
    0 ≤ normalized_prob c shots ∧ normalized_prob c shots ≤ 1 := by
  have hmem' : c ∈ counts.map Prod.snd := List.mem_map.2 ⟨(k, c), hmem, rfl⟩
  have hsum : c ≤ (counts.map Prod.snd).sum :=
    List.single_le_sum (fun x _ => Nat.zero_le x) c hmem'
  have hc : c ≤ shots := by
    have := hwf
    unfold WellFormedCounts at this
    omega
  constructor
  · exact div_nonneg (Nat.cast_nonneg c) (Nat.cast_nonneg shots)
  · rw [normalized_prob, div_le_one (by exact_mod_cast hpos)]
    exact_mod_cast hc

/-- Witness for claim C3 at a concrete histogram with 1024 shots. -/
theorem normalized_prob_mem_unit_interval_witness :
    0 ≤ normalized_prob 700 1024 ∧ normalized_prob 700 1024 ≤ 1 :=
  normalized_prob_mem_unit_interval [("00000", 324), ("00001", 700)] 1024
    "00001" 700 rfl (by decide) (by simp)

/-- Embedding of `data[ii] = float(result.get_counts(key)[keys_0_1[1]])/shots`:
the measured success probability of one step, as a real number. -/
noncomputable def data_point (count shots : ℕ) : ℝ := (count : ℝ) / (shots : ℝ)

/-- Embedding of `sigma_data[ii] = np.sqrt(data[ii]*(1-data[ii]))/np.sqrt(shots)`:
the standard error the notebook attaches to one step. -/
noncomputable def sigma_point (count shots : ℕ) : ℝ :=
  Real.sqrt (data_point count shots * (1 - data_point count shots)) /
    Real.sqrt (shots : ℝ)

/-- Claim C2.  For any step with `count ≤ shots` and `shots > 0`, the
measured success probability is the excited-state count divided by the
number of shots, and the attached standard error equals the binomial
standard error `sqrt(p*(1-p)/shots)`. -/
theorem sigma_point_eq_binomial_stderr (count shots : ℕ)
    (hpos : 0 < shots) (hle : count ≤ shots) :
    data_point count shots = (count : ℝ) / (shots : ℝ) ∧
    sigma_point count shots =
      Real.sqrt (data_point count shots * (1 - data_point count shots) /
        (shots : ℝ)) := by
  refine ⟨rfl, ?_⟩
  have hs : (0 : ℝ) < (shots : ℝ) := by exact_mod_cast hpos
  have hp0 : (0 : ℝ) ≤ data_point count shots :=
    div_nonneg (Nat.cast_nonneg _) (Nat.cast_nonneg _)
  have hp1 : data_point count shots ≤ 1 := by
    rw [data_point, div_le_one hs]
    exact_mod_cast hle
  have hnn : (0 : ℝ) ≤ data_point count shots * (1 - data_point count shots) :=
    mul_nonneg hp0 (by linarith)
  rw [sigma_point, (Real.sqrt_div hnn ((shots : ℕ) : ℝ))]

/-- Witness for claim C2 at `count = 512`, `shots = 1024`. -/
theorem sigma_point_eq_binomial_stderr_witness :
    sigma_point 512 1024 =
      Real.sqrt (data_point 512 1024 * (1 - data_point 512 1024) /
        ((1024 : ℕ) : ℝ)) :=
  (sigma_point_eq_binomial_stderr 512 1024 (by norm_num) (by norm_num)).2

/-- `leadsWith p s` holds when the pattern `p` starts the character list
`s` (the check Python's `str.find` performs at each offset). -/
def leadsWith : List Char → List Char → Bool
  | [], _ => true
  | _ :: _, [] => false
  | a :: ps, b :: ss => a == b && leadsWith ps ss

/-- Scan of `str.find`: first offset (counted from `i`) at which the
pattern starts, if any. -/
def findSubAux (p : List Char) : List Char → ℕ → Option ℕ
  | [], i => if leadsWith p [] then some i else none
  | a :: t, i => if leadsWith p (a :: t) then some i else findSubAux p t (i + 1)

/-- Embedding of Python's `s.find(pat)`: the first index at which `pat`
occurs in `s`, or `-1` when it does not occur. -/
def pyFind (s pat : String) : Int :=
  match findSubAux pat.data s.data 0 with
  | some i => (i : Int)
  | none => -1

/-- Embedding of the data-arrangement conditional
`plot_factor=1; if unit.find('ns')>-1: plot_factor=1000; punit='mus'`:
returns the plot factor and the (possibly unassigned) plot unit. -/
def arrange_units (unit : String) : ℚ × Option String :=
  if pyFind unit "ns" > -1 then (1000, some "mus") else (1, none)

/-- Embedding of one data-arrangement step: compute the x values with
the chosen plot factor, then call `plot_coherence(..., punit, ...)`,
which raises a `NameError` when `punit` was never assigned. -/
def arrange_step (unit : String) (time_per_step : ℚ) (steps : ℕ) :
    Except String (List ℚ) :=
  let pf := (arrange_units unit).1
  let xs := (List.range steps).map fun ii => xvals time_per_step steps pf ii
  match (arrange_units unit).2 with
  | none => Except.error "NameError: name punit is not defined"
  | some _ => Except.ok xs

/-- `leadsWith p s` holds exactly when `p` is an initial segment of `s`. -/
theorem leadsWith_iff_append (p : List Char) :
    ∀ s : List Char, leadsWith p s = true ↔ ∃ t, s = p ++ t := by
  induction p with
  | nil =>
    intro s
    simp [leadsWith]
  | cons a ps ih =>
    intro s
    cases s with
    | nil =>
      simp [leadsWith]
    | cons b ss =>
      simp only [leadsWith, Bool.and_eq_true, beq_iff_eq, ih ss,
        List.cons_append, List.cons.injEq]
      constructor
      · rintro ⟨hab, t, ht⟩
        exact ⟨t, hab.symm, ht⟩
      · rintro ⟨t, hab, ht⟩
        exact ⟨hab.symm, t, ht⟩

/-- The scan succeeds exactly when the pattern occurs somewhere in the
remaining string. -/
theorem findSubAux_isSome_iff (p : List Char) :
    ∀ (s : List Char) (i : ℕ),
      (findSubAux p s i).isSome = true ↔ ∃ pre post, s = pre ++ p ++ post := by
  intro s
  induction s with
  | nil =>
    intro i
    by_cases hl : leadsWith p [] = true
    · have hp : ∃ t, ([] : List Char) = p ++ t := (leadsWith_iff_append p []).1 hl
      obtain ⟨t, ht⟩ := hp
      have hpnil : p = [] := by
        cases p with
        | nil => rfl
        | cons a ps => simp at ht
      subst hpnil
      simp [findSubAux, hl]
    · simp only [findSubAux, hl, if_false, Option.isSome_none,
        Bool.false_eq_true, false_iff]
      rintro ⟨pre, post, hs⟩
      have : ∃ t, ([] : List Char) = p ++ t := by
        have hpre : pre = [] := by
          cases pre with
          | nil => rfl
          | cons a t => simp at hs
        subst hpre
        have hpp : p = [] := by
          cases p with
          | nil => rfl
          | cons a t => simp at hs
        exact ⟨[], by simp [hpp]⟩
      exact hl ((leadsWith_iff_append p []).2 this)
  | cons a t ih =>
    intro i
    by_cases hl : leadsWith p (a :: t) = true
    · obtain ⟨u, hu⟩ := (leadsWith_iff_append p (a :: t)).1 hl
      simp only [findSubAux, hl, if_true, Option.isSome_some, true_iff]
      exact ⟨[], u, by simpa using hu⟩
    · have hstep : findSubAux p (a :: t) i = findSubAux p t (i + 1) := by
        simp only [findSubAux]
        rw [if_neg hl]
      rw [hstep, ih (i + 1)]
      constructor
      · rintro ⟨pre, post, hs⟩
        exact ⟨a :: pre, post, by simp [hs]⟩
      · rintro ⟨pre, post, hs⟩
        cases pre with
        | nil =>
          exfalso
          apply hl
          apply (leadsWith_iff_append p (a :: t)).2
          exact ⟨post, by simpa using hs⟩
        | cons b pre' =>
          simp only [List.cons_append, List.cons.injEq] at hs
          exact ⟨pre', post, hs.2⟩

/-- `pyFind` reports an occurrence (result `> -1`) exactly when the
pattern is a substring. -/
theorem pyFind_gt_neg_one_iff (s pat : String) :
    pyFind s pat > -1 ↔ ∃ pre post, s.data = pre ++ pat.data ++ post := by
  rw [← findSubAux_isSome_iff pat.data s.data 0, pyFind]
  cases hfa : findSubAux pat.data s.data 0 with
  | none => simp
  | some i =>
    simp only [Option.isSome_some, iff_true]
    omega

/-- Claim C8.  `punit` is assigned exactly when the backend unit string
contains `'ns'`; when it does not, the plot factor stays `1` (the x
values are left unscaled) and the data-arrangement step fails with a
`NameError` at the plotting call. -/
theorem punit_requires_ns (unit : String) (time_per_step : ℚ) (steps : ℕ) :
    ((arrange_units unit).2 ≠ none ↔
      ∃ pre post, unit.data = pre ++ "ns".data ++ post) ∧
    ((arrange_units unit).2 = none →
      (arrange_units unit).1 = 1 ∧
      arrange_step unit time_per_step steps =
        Except.error "NameError: name punit is not defined") := by
  constructor
  · rw [← pyFind_gt_neg_one_iff unit "ns"]
    unfold arrange_units
    by_cases hns : pyFind unit "ns" > -1
    · simp [hns]
    · simp [hns]
  · intro hnone
    have hns : ¬ pyFind unit "ns" > -1 := by
      intro hgt
      rw [arrange_units, if_pos hgt] at hnone
      simp at hnone
    constructor
    · rw [arrange_units, if_neg hns]
    · rw [arrange_step, hnone]

/-- Witness for claim C8 at the unit string `"us"`, which does not
contain `'ns'`. -/
theorem punit_requires_ns_witness :
    (arrange_units "us").1 = 1 ∧
    arrange_step "us" 8000 10 =
      Except.error "NameError: name punit is not defined" :=
  (punit_requires_ns "us" 8000 10).2 (by decide)

/-- Embedding of `keys_0_1 = list(result.get_counts('step_0').keys())`:
the keys of the step-0 histogram in insertion order (Python dicts are
insertion ordered). -/
def keys_0_1 (counts0 : List (String × ℕ)) : List String := counts0.map Prod.fst

/-- The bitstring the code treats as the excited state:
`keys_0_1[1]`, the second key of the step-0 histogram.  Indexing past
the end raises an `IndexError`, modelled as `none`. -/
def excitedKey (counts0 : List (String × ℕ)) : Option String :=
  (keys_0_1 counts0)[1]?

/-- Looks up `result.get_counts(key)[k]` for each step in turn; a
missing key raises a `KeyError`, modelled as `none`. -/
def extract_counts (k : String) : List (List (String × ℕ)) → Option (List ℕ)
  | [] => some []
  | c :: rest =>
    match List.lookup k c with
    | none => none
    | some v => (extract_counts k rest).map fun vs => v :: vs

/-- Embedding of the data-extraction loop: select `keys_0_1[1]` from the
step-0 histogram, look it up in every step's histogram, and normalize by
the number of shots. -/
def extract_data (counts0 : List (String × ℕ))
    (stepCounts : List (List (String × ℕ))) (shots : ℕ) : Option (List ℚ) :=
  match excitedKey counts0 with
  | none => none
  | some k =>
    (extract_counts k stepCounts).map fun vs =>
      vs.map fun v => (v : ℚ) / (shots : ℚ)

/-- If some step's histogram lacks the selected key, the extraction
fails. -/
theorem extract_counts_eq_none (k : String)
    (stepCounts : List (List (String × ℕ))) (c : List (String × ℕ))
    (hc : c ∈ stepCounts) (hmiss : List.lookup k c = none) :
    extract_counts k stepCounts = none := by
  induction stepCounts with
  | nil => cases hc
  | cons c0 rest ih =>
    rcases List.mem_cons.1 hc with h0 | hrest
    · subst h0
      simp [extract_counts, hmiss]
    · unfold extract_counts
      cases List.lookup k c0 with
      | none => rfl
      | some v => simp [ih hrest]

/-- Claim C9.  The extraction selects the second key of the step-0
histogram (so it depends on the mapping's key order), fails when the
step-0 histogram has fewer than two keys, and fails when some step's
histogram lacks the selected key. -/
theorem keys_0_1_extraction (counts0 : List (String × ℕ))
    (stepCounts : List (List (String × ℕ))) (shots : ℕ) :
    (counts0.length < 2 → extract_data counts0 stepCounts shots = none) ∧
    (∀ k c, excitedKey counts0 = some k → c ∈ stepCounts →
      List.lookup k c = none →
      extract_data counts0 stepCounts shots = none) ∧
    (excitedKey [("00000", 512), ("00001", 512)] = some "00001" ∧
      excitedKey [("00001", 512), ("00000", 512)] = some "00000") := by
  refine ⟨?_, ?_, by decide⟩
  · intro hlen
    have hk : excitedKey counts0 = none := by
      apply List.getElem?_eq_none
      simp only [keys_0_1, List.length_map]
      omega
    rw [extract_data, hk]
  · intro k c hkey hc hmiss
    have hec := extract_counts_eq_none k stepCounts c hc hmiss
    simp [extract_data, hkey, hec]

/-- Witness for claim C9: a one-key step-0 histogram fails, and a step
histogram missing the selected key fails. -/
theorem keys_0_1_extraction_witness :
    extract_data [("00000", 1024)] [] 1024 = none ∧
    extract_data [("00000", 512), ("00001", 512)] [[("00000", 1024)]]
      1024 = none :=
  ⟨(keys_0_1_extraction [("00000", 1024)] [] 1024).1 (by decide),
    (keys_0_1_extraction [("00000", 512), ("00001", 512)]
        [[("00000", 1024)]] 1024).2.1 "00001" [("00000", 1024)]
      (by decide) (by simp) (by decide)⟩

/-- Embedding of
`filteredAnswer = \x7bk: v for k,v in answer.items() if v >= threshold\x7d`. -/
def filterAnswer (answer : List (String × ℕ)) (threshold : ℕ) :
    List (String × ℕ) :=
  answer.filter fun kv => threshold ≤ kv.2

/-- Embedding of
`removedCounts = np.sum([v for k,v in answer.items() if v < threshold])`. -/
def removedCounts (answer : List (String × ℕ)) (threshold : ℕ) : ℕ :=
  ((answer.filter fun kv => kv.2 < threshold).map Prod.snd).sum

/-- Python dict assignment `d[k] = v` on an insertion-ordered
association list: overwrite in place if present, else append. -/
def dictSet (d : List (String × ℕ)) (k : String) (v : ℕ) :
    List (String × ℕ) :=
  if d.any fun kv => kv.1 == k then
    d.map fun kv => if kv.1 == k then (k, v) else kv
  else d ++ [(k, v)]

/-- Embedding of the full filtering cell:
`filteredAnswer['other_bitstring'] = removedCounts`. -/
def filteredAnswer (answer : List (String × ℕ)) (threshold : ℕ) :
    List (String × ℕ) :=
  dictSet (filterAnswer answer threshold) "other_bitstring"
    (removedCounts answer threshold)

/-- Total number of counts in a histogram. -/
def totalCounts (d : List (String × ℕ)) : ℕ := (d.map Prod.snd).sum

/-- Kept counts plus removed counts equal the original total. -/
theorem filter_total_split (answer : List (String × ℕ)) (threshold : ℕ) :
    totalCounts (filterAnswer answer threshold) +
      removedCounts answer threshold = totalCounts answer := by
  induction answer with
  | nil => rfl
  | cons kv rest ih =>
    simp only [totalCounts, filterAnswer, removedCounts] at *
    rw [List.filter_cons, List.filter_cons, List.map_cons, List.sum_cons]
    by_cases hk : threshold ≤ kv.2
    · rw [if_pos (by simpa using hk), if_neg (by simpa using Nat.not_lt.2 hk)]
      simp only [List.map_cons, List.sum_cons]
      omega
    · rw [if_neg (by simpa using hk), if_pos (by simpa using Nat.not_le.1 hk)]
      simp only [List.map_cons, List.sum_cons]
      omega

/-- Claim C10.  Provided `'other_bitstring'` is not already a key of the
answer mapping, the filtered histogram (kept entries plus the
`'other_bitstring'` entry holding the removed counts) has the same total
count as the original answer mapping. -/
theorem filteredAnswer_preserves_total (answer : List (String × ℕ))
    (threshold : ℕ)
    (h : ∀ kv ∈ answer, kv.1 ≠ "other_bitstring") :
    totalCounts (filteredAnswer answer threshold) = totalCounts answer := by
  have hnone : (filterAnswer answer threshold).any
      (fun kv => kv.1 == "other_bitstring") = false := by
    rw [List.any_eq_false]
    intro kv hkv
    have : kv ∈ answer := List.mem_of_mem_filter hkv
    simpa using h kv this
  rw [filteredAnswer, dictSet, if_neg (by rw [hnone]; simp)]
  have happ : totalCounts (filterAnswer answer threshold ++
      [("other_bitstring", removedCounts answer threshold)]) =
      totalCounts (filterAnswer answer threshold) +
        removedCounts answer threshold := by
    simp [totalCounts]
  rw [happ, filter_total_split]

/-- Witness for claim C10 at a concrete answer histogram. -/
theorem filteredAnswer_preserves_total_witness :
    totalCounts (filteredAnswer [("0000", 900), ("1111", 20), ("1010", 80)]
      30) = totalCounts [("0000", 900), ("1111", 20), ("1010", 80)] :=
  filteredAnswer_preserves_total [("0000", 900), ("1111", 20), ("1010", 80)]
    30 (by decide)

/-- Parameter vector lying inside the box given by the `bounds`
argument of `curve_fit`. -/
def InBounds {n : ℕ} (lb ub p : Fin n → ℝ) : Prop :=
  ∀ i, lb i ≤ p i ∧ p i ≤ ub i

/-- Sum of squared residuals of a model on a data set of (x, y) pairs. -/
noncomputable def ssr {n : ℕ} (f : (Fin n → ℝ) → ℝ → ℝ) (p : Fin n → ℝ)
    (data : List (ℝ × ℝ)) : ℝ :=
  (data.map fun d => (f p d.1 - d.2) ^ 2).sum

/-- A curve-fit result: best-fit parameter vector and parameter
covariance matrix, as returned by `curve_fit`. -/
structure CurveFitResult (n : ℕ) where
  popt : Fin n → ℝ
  pcov : Fin n → Fin n → ℝ

/-- Modelled from the spec: `scipy.optimize.curve_fit` is external to
the repository; per the spec its output is a "best-fit parameter vector
minimizing sum-of-squared residuals, plus the parameter covariance
matrix", with the parameters constrained to the given bounds. -/
def IsCurveFit {n : ℕ} (f : (Fin n → ℝ) → ℝ → ℝ) (data : List (ℝ × ℝ))
    (lb ub : Fin n → ℝ) (r : CurveFitResult n) : Prop :=
  InBounds lb ub r.popt ∧
    ∀ p, InBounds lb ub p → ssr f r.popt data ≤ ssr f p data

/-- Embedding of `ferr = np.sqrt(np.diag(fcov))`: the standard error
reported for each parameter. -/
noncomputable def ferr {n : ℕ} (r : CurveFitResult n) : Fin n → ℝ :=
  fun i => Real.sqrt (r.pcov i i)

/-- A sum of squared residuals is nonnegative. -/
theorem ssr_nonneg {n : ℕ} (f : (Fin n → ℝ) → ℝ → ℝ) (p : Fin n → ℝ)
    (data : List (ℝ × ℝ)) : 0 ≤ ssr f p data := by
  unfold ssr
  apply List.sum_nonneg
  intro x hx
  obtain ⟨d, _, rfl⟩ := List.mem_map.1 hx
  positivity

/-- A list of nonnegative reals summing to zero is all zeros. -/
theorem list_sum_nonneg_all_zero :
    ∀ l : List ℝ, (∀ y ∈ l, 0 ≤ y) → l.sum = 0 → ∀ y ∈ l, y = 0
  | [] => by
    intro _ _ y hy
    cases hy
  | a :: t => by
    intro hnn hsum y hy
    have hts : 0 ≤ t.sum :=
      List.sum_nonneg fun z hz => hnn z (List.mem_cons_of_mem a hz)
    have ha : 0 ≤ a := hnn a (List.mem_cons_self a t)
    have hsum' : a + t.sum = 0 := by simpa using hsum
    rcases List.mem_cons.1 hy with rfl | hyt
    · linarith
    · exact list_sum_nonneg_all_zero t
        (fun z hz => hnn z (List.mem_cons_of_mem a hz)) (by linarith) y hyt

/-- A model fits its own synthetic data with zero residual. -/
theorem ssr_self_eq_zero {n : ℕ} (f : (Fin n → ℝ) → ℝ → ℝ)
    (p : Fin n → ℝ) (xs : List ℝ) :
    ssr f p (xs.map fun x => (x, f p x)) = 0 := by
  unfold ssr
  rw [List.map_map]
  have : (fun d => (f p (Prod.fst d) - Prod.snd d) ^ 2) ∘
      (fun x => (x, f p x)) = fun _ => (0 : ℝ) := by
    funext x
    simp
  rw [this]
  induction xs with
  | nil => rfl
  | cons a t ih => simp [ih]

/-- Zero total residual on synthetic data forces pointwise agreement. -/
theorem ssr_zero_pointwise {n : ℕ} (f : (Fin n → ℝ) → ℝ → ℝ)
    (p q : Fin n → ℝ) (xs : List ℝ)
    (h : ssr f p (xs.map fun x => (x, f q x)) = 0) :
    ∀ x ∈ xs, f p x = f q x := by
  intro x hx
  have hmem : (f p x - f q x) ^ 2 ∈
      (xs.map fun x => (x, f q x)).map fun d => (f p d.1 - d.2) ^ 2 := by
    rw [List.map_map]
    exact List.mem_map.2 ⟨x, hx, rfl⟩
  have hzero : (f p x - f q x) ^ 2 = 0 := by
    apply list_sum_nonneg_all_zero _ _ h _ hmem
    intro y hy
    obtain ⟨d, _, rfl⟩ := List.mem_map.1 hy
    positivity
  have hsub : f p x - f q x = 0 :=
    (pow_eq_zero_iff two_ne_zero).1 hzero
  exact sub_eq_zero.1 hsub

/-- Claim C4.  A curve-fit result consists of a parameter vector
minimizing the sum of squared residuals over the bounds box together
with a covariance matrix, and each parameter's reported standard error
is the square root of the corresponding diagonal entry of that matrix. -/
theorem curve_fit_output_spec {n : ℕ} (f : (Fin n → ℝ) → ℝ → ℝ)
    (data : List (ℝ × ℝ)) (lb ub : Fin n → ℝ) (r : CurveFitResult n)
    (hfit : IsCurveFit f data lb ub r) :
    (∀ p, InBounds lb ub p → ssr f r.popt data ≤ ssr f p data) ∧
    ∀ i, ferr r i = Real.sqrt (r.pcov i i) :=
  ⟨hfit.2, fun _ => rfl⟩

/-- A one-parameter constant model, used to instantiate the fitter
contract on concrete data. -/
noncomputable def constModel : (Fin 1 → ℝ) → ℝ → ℝ := fun p _ => p 0

/-- Concrete synthetic data set for the constant model with value 2. -/
noncomputable def dataW : List (ℝ × ℝ) := [(0, 2)]

/-- Concrete lower bound for the one-parameter fits. -/
noncomputable def lbW : Fin 1 → ℝ := fun _ => 0

/-- Concrete upper bound for the one-parameter fits. -/
noncomputable def ubW : Fin 1 → ℝ := fun _ => 5

/-- Concrete fit result recovering the constant value 2. -/
noncomputable def fitW : CurveFitResult 1 := ⟨fun _ => 2, fun _ _ => 0⟩

/-- `fitW` satisfies the modelled fitter contract on `dataW`. -/
theorem fitW_is_curve_fit : IsCurveFit constModel dataW lbW ubW fitW := by
  constructor
  · intro i
    constructor <;> norm_num [fitW, lbW, ubW]
  · intro p hp
    have h0 : ssr constModel fitW.popt dataW = 0 := by
      simp [ssr, constModel, fitW, dataW]
    rw [h0]
    exact ssr_nonneg constModel p dataW

/-- Witness for claim C4 at the concrete fit result `fitW`. -/
theorem curve_fit_output_spec_witness :
    ferr fitW 0 = Real.sqrt (fitW.pcov 0 0) :=
  (curve_fit_output_spec constModel dataW lbW ubW fitW fitW_is_curve_fit).2 0

/-- Modelled from the spec:
`qiskit.tools.qcvv.fitters.exp_fit_fun` is external to the repository;
per the spec it is the exponential-decay model `a*exp(-x/T)+c`. -/
noncomputable def exp_fit_fun (p : Fin 3 → ℝ) (x : ℝ) : ℝ :=
  p 0 * Real.exp (-x / p 1) + p 2

/-- Modelled from the spec:
`qiskit.tools.qcvv.fitters.osc_fit_fun` is external to the repository;
per the spec it is the damped-oscillation model
`a*exp(-x/T)*cos(2*pi*f*x+phi)+c`. -/
noncomputable def osc_fit_fun (p : Fin 5 → ℝ) (x : ℝ) : ℝ :=
  p 0 * Real.exp (-x / p 1) * Real.cos (2 * Real.pi * p 2 * x + p 3) + p 4

/-- The T1 fit bounds `([-1, 2, 0], [1, 500, 1])` from the notebook. -/
noncomputable def t1_lb : Fin 3 → ℝ := ![-1, 2, 0]

/-- Upper half of the T1 fit bounds. -/
noncomputable def t1_ub : Fin 3 → ℝ := ![1, 500, 1]

/-- Degenerate true parameter vector `a = 0, T = 2, c = 1/2` inside the
T1 bounds. -/
noncomputable def pTrueC5 : Fin 3 → ℝ := ![0, 2, 1/2]

/-- Alternative fit result with `T = 3` that fits the same degenerate
synthetic data exactly. -/
noncomputable def rAltC5 : CurveFitResult 3 := ⟨![0, 3, 1/2], fun _ _ => 0⟩

/-- Sample points of the degenerate synthetic data set. -/
noncomputable def xsC5 : List ℝ := [0, 1]

/-- Counterexample to claim C5 as stated: synthetic data generated
exactly from `exp_fit_fun` with parameters `(0, 2, 1/2)` admits the
different parameter vector `(0, 3, 1/2)` as an exact best fit inside the
T1 bounds, so a fitter satisfying the spec's contract need not recover
the known parameters when they are not identifiable. -/
theorem zero_noise_fit_not_unique :
    InBounds t1_lb t1_ub pTrueC5 ∧
    IsCurveFit exp_fit_fun (xsC5.map fun x => (x, exp_fit_fun pTrueC5 x))
      t1_lb t1_ub rAltC5 ∧
    rAltC5.popt ≠ pTrueC5 := by
  refine ⟨?_, ⟨?_, ?_⟩, ?_⟩
  · intro i
    fin_cases i <;> constructor <;> norm_num [t1_lb, t1_ub, pTrueC5]
  · intro i
    fin_cases i <;> constructor <;> norm_num [t1_lb, t1_ub, rAltC5]
  · intro p hp
    have h0 : ssr exp_fit_fun rAltC5.popt
        (xsC5.map fun x => (x, exp_fit_fun pTrueC5 x)) = 0 := by
      simp [ssr, exp_fit_fun, rAltC5, pTrueC5, xsC5]
    rw [h0]
    exact ssr_nonneg exp_fit_fun p _
  · intro h
    have h1 := congrFun h 1
    norm_num [rAltC5, pTrueC5] at h1

/-- Claim C5, amended.  For synthetic data generated exactly from the
model with true parameters inside the bounds and zero noise, any fit
result satisfying the fitter contract attains zero sum of squared
residuals, agrees with the true model at every sample point, and — when
the parameters are identifiable from the sample points — equals the
true parameters exactly. -/
theorem zero_noise_fit_recovery {n : ℕ} (f : (Fin n → ℝ) → ℝ → ℝ)
    (xs : List ℝ) (ptrue lb ub : Fin n → ℝ) (r : CurveFitResult n)
    (hb : InBounds lb ub ptrue)
    (hfit : IsCurveFit f (xs.map fun x => (x, f ptrue x)) lb ub r) :
    ssr f r.popt (xs.map fun x => (x, f ptrue x)) = 0 ∧
    (∀ x ∈ xs, f r.popt x = f ptrue x) ∧
    ((∀ p q, InBounds lb ub p → InBounds lb ub q →
        (∀ x ∈ xs, f p x = f q x) → p = q) → r.popt = ptrue) := by
  have hle := hfit.2 ptrue hb
  rw [ssr_self_eq_zero f ptrue xs] at hle
  have h0 : ssr f r.popt (xs.map fun x => (x, f ptrue x)) = 0 :=
    le_antisymm hle (ssr_nonneg f r.popt _)
  have hpt : ∀ x ∈ xs, f r.popt x = f ptrue x :=
    ssr_zero_pointwise f r.popt ptrue xs h0
  exact ⟨h0, hpt, fun hid => hid r.popt ptrue hfit.1 hb hpt⟩

/-- The true parameter of the one-parameter constant-model witness. -/
noncomputable def pTrueW : Fin 1 → ℝ := fun _ => 2

/-- Fit result for the constant-model witness. -/
noncomputable def rW : CurveFitResult 1 := ⟨pTrueW, fun _ _ => 0⟩

/-- Witness for claim C5 (amended): on synthetic data from the constant
model, a conforming fit attains zero residual. -/
theorem zero_noise_fit_recovery_witness :
    ssr constModel rW.popt ([(0 : ℝ)].map fun x => (x, constModel pTrueW x))
      = 0 :=
  (zero_noise_fit_recovery constModel [(0 : ℝ)] pTrueW lbW ubW rW
    (by intro i; constructor <;> norm_num [pTrueW, lbW, ubW])
    ⟨by intro i; constructor <;> norm_num [rW, pTrueW, lbW, ubW],
      by
        intro p hp
        have h0 : ssr constModel rW.popt
            ([(0 : ℝ)].map fun x => (x, constModel pTrueW x)) = 0 := by
          simp [ssr, constModel, rW, pTrueW]
        rw [h0]
        exact ssr_nonneg constModel p _⟩).1

/-- The argument shape of one `curve_fit` call site: model-function
name, lengths of the x and y arrays, optional initial guess `p0`, and
optional bounds. -/
structure CurveFitCall where
  model : String
  xlen : ℕ
  ylen : ℕ
  p0 : Option (List ℝ)
  bounds : Option (List ℝ × List ℝ)

/-- The T1 call
`curve_fit(exp_fit_fun, xvals, data, bounds=([-1,2,0], [1., 500, 1]))`
with `steps = 10`. -/
noncomputable def t1_call : CurveFitCall :=
  ⟨"exp_fit_fun", 10, 10, none, some ([-1, 2, 0], [1, 500, 1])⟩

/-- The T2* call
`curve_fit(osc_fit_fun, xvals, data, p0=[0.5, 100, 1/10, np.pi, 0],
bounds=([0.3,0,0,0,0], [0.5, 200, 1/2, 2*np.pi, 1]))` with `steps = 40`. -/
noncomputable def t2star_call : CurveFitCall :=
  ⟨"osc_fit_fun", 40, 40, some [1/2, 100, 1/10, Real.pi, 0],
    some ([3/10, 0, 0, 0, 0], [1/2, 200, 1/2, 2 * Real.pi, 1])⟩

/-- The T2 echo call
`curve_fit(exp_fit_fun, xvals, data, bounds=([-1,10,0], [1, 150, 1]))`
with `steps = 20`. -/
noncomputable def t2echo_call : CurveFitCall :=
  ⟨"exp_fit_fun", 20, 20, none, some ([-1, 10, 0], [1, 150, 1])⟩

/-- The CPMG call
`curve_fit(exp_fit_fun, xvals, data, bounds=([-1,10,0], [1, 150, 1]))`
with `steps = 17`. -/
noncomputable def cpmg_call : CurveFitCall :=
  ⟨"exp_fit_fun", 17, 17, none, some ([-1, 10, 0], [1, 150, 1])⟩

/-- Counterexample to claim C6 as stated: the T1 invocation of the
curve fitter passes no initial parameter guess (`p0` is absent, so
scipy falls back to its default of all ones). -/
theorem t1_call_has_no_initial_guess : t1_call.p0 = none := rfl

/-- Claim C6, amended.  Every invocation of the curve fitter receives
x and y sequences of equal length (an ordered sequence of (x, y) pairs)
and explicit bounds; only the T2* invocation also passes an explicit
initial parameter guess, the T1, T2 echo and CPMG invocations pass
none. -/
theorem curve_fit_call_arguments :
    (t1_call.xlen = t1_call.ylen ∧ t1_call.bounds.isSome = true ∧
      t1_call.p0 = none) ∧
    (t2star_call.xlen = t2star_call.ylen ∧
      t2star_call.bounds.isSome = true ∧ t2star_call.p0.isSome = true) ∧
    (t2echo_call.xlen = t2echo_call.ylen ∧
      t2echo_call.bounds.isSome = true ∧ t2echo_call.p0 = none) ∧
    (cpmg_call.xlen = cpmg_call.ylen ∧ cpmg_call.bounds.isSome = true ∧
      cpmg_call.p0 = none) :=
  ⟨⟨rfl, rfl, rfl⟩, ⟨rfl, rfl, rfl⟩, ⟨rfl, rfl, rfl⟩, ⟨rfl, rfl, rfl⟩⟩

/-- Embedding of the fit block
`fitT1, fcov = curve_fit(...)` followed by
`ferr = np.sqrt(np.diag(fcov))`: the fitter either raises (error) or
returns parameters and covariance; there is no `try/except` around it,
so an error passes through unchanged and no standard errors are
computed. -/
noncomputable def fit_block (n : ℕ)
    (fit : Except String ((Fin n → ℝ) × (Fin n → Fin n → ℝ))) :
    Except String ((Fin n → ℝ) × (Fin n → ℝ)) :=
  match fit with
  | Except.error e => Except.error e
  | Except.ok pr => Except.ok (pr.1, fun i => Real.sqrt (pr.2 i i))

/-- Claim C7.  When the fitter fails with an exception, the fit block
propagates exactly that exception to the caller and produces no fit
result or standard errors. -/
theorem fit_error_propagates (n : ℕ) (e : String) :
    fit_block n (Except.error e) = Except.error e ∧
    ∀ out, fit_block n (Except.error e) ≠ Except.ok out := by
  refine ⟨rfl, ?_⟩
  intro out h
  exact Except.noConfusion h

/-- Witness for claim C7 at scipy's convergence-failure message. -/
theorem fit_error_propagates_witness :
    fit_block 3 (Except.error "Optimal parameters not found") =
      Except.error "Optimal parameters not found" :=
  (fit_error_propagates 3 "Optimal parameters not found").1

end Qcvv
